import Mathlib

/-!
Verification of the hierarchical graph layout and navigation engine of the
yt-transcript-retrieval frontend (src/frontend/src/app/page.tsx).

The embedding models the data records, the filter aggregator, the view-state
machine, the geometry routines and the per-view node/edge builders as pure
Lean functions translated from the TypeScript source.  JavaScript numbers are
modelled as exact rationals; the external company-name extraction collaborator
(extractCompaniesFromTitle, declared out of scope by the specification) is
passed in as an abstract pure function, and the transcendental Math functions
(sqrt, atan2, cos, sin, PI) are passed in as function parameters so that every
definition stays executable.
-/

/-- A 2-D point; JavaScript float coordinates are modelled as rationals. -/
structure Pt where
  x : ℚ
  y : ℚ
deriving DecidableEq, Repr, Inhabited

/-- Idea record (fields of the inbound payload used by the layout engine;
display-only payload fields such as summary, guest and links are omitted).
Per the data model an idea's cluster_id is nullable. -/
structure IdeaNodeData where
  id : String
  cluster_id : Option String
  episode_title : String
deriving DecidableEq, Repr

/-- Connection record: endpoints, kind and strength. -/
structure IdeaEdgeData where
  source : String
  target : String
  connection_type : String
  strength : ℚ
deriving DecidableEq, Repr

/-- Cluster record with its precomputed authoritative idea_count. -/
structure ClusterInfo where
  id : String
  color : String
  idea_count : ℕ
deriving DecidableEq, Repr

/-- The immutable graph payload held by the page component (graphData). -/
structure GraphData where
  ideas : List IdeaNodeData
  connections : List IdeaEdgeData
  clusters : List ClusterInfo
deriving DecidableEq, Repr

/-- The four view levels of page.tsx (type ViewLevel). -/
inductive ViewLevel where
  | clusters
  | topIdeas
  | connectedIdeas
  | allIdeas
deriving DecidableEq, Repr

/-- The view state held in the IdeaGraphInner component: viewLevel,
focusedCluster, focusedIdea, plus the orthogonal selectedIdea side panel. -/
structure ViewState where
  viewLevel : ViewLevel
  focusedCluster : Option ClusterInfo
  focusedIdea : Option IdeaNodeData
  selectedIdea : Option IdeaNodeData
deriving DecidableEq, Repr

/-- Initial state: useState defaults (clusters level, no focus, no panel). -/
def initialViewState : ViewState :=
  { viewLevel := ViewLevel.clusters, focusedCluster := none,
    focusedIdea := none, selectedIdea := none }

/-- handleExpandCluster (page.tsx lines 832-837). -/
def handleExpandCluster (cluster : ClusterInfo) (s : ViewState) : ViewState :=
  { s with focusedCluster := some cluster, focusedIdea := none,
           viewLevel := ViewLevel.topIdeas, selectedIdea := none }

/-- handleBackToClusters (page.tsx lines 839-844). -/
def handleBackToClusters (s : ViewState) : ViewState :=
  { s with focusedCluster := none, focusedIdea := none,
           viewLevel := ViewLevel.clusters, selectedIdea := none }

/-- handleBackToTopIdeas (page.tsx lines 846-850). -/
def handleBackToTopIdeas (s : ViewState) : ViewState :=
  { s with focusedIdea := none, viewLevel := ViewLevel.topIdeas,
           selectedIdea := none }

/-- handleExpandIdea (page.tsx lines 852-856). -/
def handleExpandIdea (idea : IdeaNodeData) (s : ViewState) : ViewState :=
  { s with focusedIdea := some idea, viewLevel := ViewLevel.connectedIdeas,
           selectedIdea := none }

/-- filteredIdeas (page.tsx lines 800-807): with an empty company filter the
full idea list is returned; otherwise ideas whose episode-derived company list
intersects the filter set. -/
def filteredIdeas (extractCompanies : String → List String) (g : GraphData)
    (selectedCompanies : List String) : List IdeaNodeData :=
  if selectedCompanies.length = 0 then g.ideas
  else g.ideas.filter fun idea =>
    (extractCompanies idea.episode_title).any fun c => selectedCompanies.contains c

/-- filteredClusters (page.tsx lines 813-829): with an empty filter the
original cluster records are returned unchanged; otherwise each cluster is
copied with idea_count replaced by the number of filtered ideas whose
cluster key (idea.cluster_id falling back to the empty string, as in the
clusterCounts Map) equals the cluster id. -/
def filteredClusters (extractCompanies : String → List String) (g : GraphData)
    (selectedCompanies : List String) : List ClusterInfo :=
  if selectedCompanies.length = 0 then g.clusters
  else g.clusters.map fun cluster =>
    { cluster with
      idea_count := (filteredIdeas extractCompanies g selectedCompanies).countP
        fun idea => idea.cluster_id.getD "" == cluster.id }

/-- getConnectedIdeas (page.tsx lines 859-869): ideas linked to the given id by
any connection in either direction (the connectedIds Set membership test is
unfolded into an any-scan over the connection list). -/
def getConnectedIdeas (g : GraphData) (ideaId : String) : List IdeaNodeData :=
  g.ideas.filter fun i =>
    g.connections.any fun conn =>
      (conn.source == ideaId && conn.target == i.id) ||
      (conn.target == ideaId && conn.source == i.id)

/-- connCounts (page.tsx lines 883-887, 940-944, 984-988, 1169-1173): the Map
built by incrementing per connection endpoint; its lookup for a given id
equals the number of connections having that id as source plus the number
having it as target. -/
def connCount (connections : List IdeaEdgeData) (ideaId : String) : ℕ :=
  connections.countP (fun conn => conn.source == ideaId) +
    connections.countP (fun conn => conn.target == ideaId)

/-- C4: from any state, the transition sequence select-cluster(C),
select-idea(I), back, back-to-clusters returns the view state exactly to the
clusters level with both focuses (and the side panel) cleared, and each of the
four transition handlers produces exactly the level and focus assignments
listed in the specification's transition table. -/
theorem C4_view_state_round_trip (s : ViewState) (C : ClusterInfo) (I : IdeaNodeData) :
    handleBackToClusters (handleBackToTopIdeas (handleExpandIdea I (handleExpandCluster C s)))
      = initialViewState
    ∧ handleExpandCluster C s
      = { viewLevel := ViewLevel.topIdeas, focusedCluster := some C,
          focusedIdea := none, selectedIdea := none }
    ∧ handleExpandIdea I (handleExpandCluster C s)
      = { viewLevel := ViewLevel.connectedIdeas, focusedCluster := some C,
          focusedIdea := some I, selectedIdea := none }
    ∧ handleBackToTopIdeas (handleExpandIdea I (handleExpandCluster C s))
      = { viewLevel := ViewLevel.topIdeas, focusedCluster := some C,
          focusedIdea := none, selectedIdea := none }
    ∧ handleBackToClusters s = initialViewState := by
  refine ⟨rfl, rfl, rfl, rfl, rfl⟩

/-- Sample graph for the empty-filter claim: the single cluster carries the
precomputed (authoritative) idea_count 7 even though only one loaded idea
belongs to it. -/
def gC10 : GraphData :=
  { ideas := [{ id := "i1", cluster_id := some "c1", episode_title := "t1" }],
    connections := [],
    clusters := [{ id := "c1", color := "#fff", idea_count := 7 }] }

/-- C10: with an empty company-filter set, filteredIdeas is exactly the loaded
idea list and filteredClusters is exactly the original cluster records with
their precomputed idea_count; concretely, a cluster whose precomputed count (7)
disagrees with its actual loaded membership (1) is still displayed with 7. -/
theorem C10_empty_filter_identity :
    (∀ (extractCompanies : String → List String) (g : GraphData),
        filteredIdeas extractCompanies g [] = g.ideas
        ∧ filteredClusters extractCompanies g [] = g.clusters)
    ∧ ((filteredClusters (fun _ => []) gC10 []).map (fun c => c.idea_count) = [7]
        ∧ gC10.ideas.countP (fun i => i.cluster_id.getD "" == "c1") = 1) := by
  refine ⟨fun extractCompanies g => ⟨rfl, rfl⟩, by decide, by decide⟩

/-- Sum of pointwise-added maps over naturals splits. -/
lemma list_sum_map_add {α : Type} (l : List α) (f g : α → ℕ) :
    (l.map (fun a => f a + g a)).sum = (l.map f).sum + (l.map g).sum := by
  induction l with
  | nil => simp
  | cons a t ih => simp [ih]; omega

/-- Summing the indicator of equality with k over a list of keys counts k. -/
lemma list_sum_map_indicator (ids : List String) (k : String) :
    (ids.map (fun x => if k == x then 1 else 0)).sum = ids.count k := by
  induction ids with
  | nil => simp
  | cons a t ih =>
    simp only [List.map_cons, List.sum_cons, List.count_cons, ih]
    have hab : (a == k) = (k == a) := by
      by_cases h : a = k
      · subst h; rfl
      · have h2 : ¬ (k = a) := fun hh => h hh.symm
        simp [h, h2]
    rw [hab]
    exact Nat.add_comm _ _

/-- Grouping a list by a key function partitions it: if the key of every
element occurs in a duplicate-free key list, the per-key occurrence counts sum
to the length of the list. -/
lemma sum_map_countP_eq_length {α : Type} (key : α → String) :
    ∀ (L : List α) (ids : List String), ids.Nodup → (∀ x ∈ L, key x ∈ ids) →
      (ids.map (fun k => L.countP (fun x => key x == k))).sum = L.length := by
  intro L
  induction L with
  | nil => intro ids _ _; simp
  | cons x L ih =>
    intro ids hnd hall
    have hstep : (ids.map (fun k => (x :: L).countP (fun y => key y == k)))
        = ids.map (fun k => L.countP (fun y => key y == k) + (if key x == k then 1 else 0)) := by
      refine List.map_congr_left fun k _ => ?_
      simp [List.countP_cons]
    rw [hstep, list_sum_map_add, ih ids hnd (fun y hy => hall y (List.mem_cons_of_mem x hy)),
      list_sum_map_indicator, List.count_eq_one_of_mem hnd (hall x (List.mem_cons_self x L))]
    simp

/-- Sample graph refuting the unrestricted partition claim: the only idea has a
null cluster_id, so under the filter it is counted under the empty-string key
and contributes to no cluster. -/
def gC1 : GraphData :=
  { ideas := [{ id := "i1", cluster_id := none, episode_title := "t1" }],
    connections := [],
    clusters := [{ id := "c1", color := "#fff", idea_count := 5 }] }

/-- C1 counterexample: with the company filter [A] active and a single matching
idea whose cluster_id is null, the recomputed per-cluster counts sum to 0 while
filteredIdeas has length 1, so the claimed partition equality fails. -/
theorem C1_counterexample :
    ¬ (((filteredClusters (fun _ => ["A"]) gC1 ["A"]).map (fun c => c.idea_count)).sum
        = (filteredIdeas (fun _ => ["A"]) gC1 ["A"]).length) := by
  decide

/-- C1 (amended): when the company filter is nonempty, the cluster ids are
duplicate-free, and every filtered idea's cluster key occurs among the cluster
ids, the recomputed idea_count values of filteredClusters sum to exactly the
length of filteredIdeas; and filteredClusters always keeps every cluster
(zero-count clusters included), preserving the id sequence. -/
theorem C1_filtered_counts_partition (extractCompanies : String → List String)
    (g : GraphData) (sel : List String) (hsel : sel ≠ [])
    (hnd : (g.clusters.map (fun c => c.id)).Nodup)
    (hkey : ∀ i ∈ filteredIdeas extractCompanies g sel,
      i.cluster_id.getD "" ∈ g.clusters.map (fun c => c.id)) :
    ((filteredClusters extractCompanies g sel).map (fun c => c.idea_count)).sum
      = (filteredIdeas extractCompanies g sel).length
    ∧ (filteredClusters extractCompanies g sel).map (fun c => c.id)
      = g.clusters.map (fun c => c.id) := by
  have hlen : ¬ (sel.length = 0) := fun h => hsel (List.length_eq_zero.mp h)
  constructor
  · unfold filteredClusters
    rw [if_neg hlen, List.map_map]
    have h := sum_map_countP_eq_length (fun i => i.cluster_id.getD "")
      (filteredIdeas extractCompanies g sel) (g.clusters.map (fun c => c.id)) hnd hkey
    rw [List.map_map] at h
    exact h
  · unfold filteredClusters
    rw [if_neg hlen, List.map_map]
    rfl

/-- Sample graph for the C1 witness: two ideas in two distinct clusters, both
matching company A. -/
def gC1w : GraphData :=
  { ideas := [{ id := "i1", cluster_id := some "c1", episode_title := "t1" },
              { id := "i2", cluster_id := some "c2", episode_title := "t2" }],
    connections := [],
    clusters := [{ id := "c1", color := "#fff", idea_count := 9 },
                 { id := "c2", color := "#000", idea_count := 9 }] }

/-- C1 witness: the amended partition equality instantiated on a concrete
two-cluster graph under the nonempty filter [A]. -/
theorem C1_filtered_counts_partition_witness :
    ((filteredClusters (fun _ => ["A"]) gC1w ["A"]).map (fun c => c.idea_count)).sum
      = (filteredIdeas (fun _ => ["A"]) gC1w ["A"]).length
    ∧ (filteredClusters (fun _ => ["A"]) gC1w ["A"]).map (fun c => c.id)
      = gC1w.clusters.map (fun c => c.id) :=
  C1_filtered_counts_partition (fun _ => ["A"]) gC1w ["A"]
    (by decide) (by decide) (by decide)

/-- Code-unit comparison on char lists, modelling the default JavaScript
Array.prototype.sort() string order used for the company list. -/
def charListLe : List Char → List Char → Bool
  | [], _ => true
  | _ :: _, [] => false
  | a :: as, b :: bs =>
    if a.toNat < b.toNat then true
    else if b.toNat < a.toNat then false
    else charListLe as bs

/-- Default JavaScript string ordering (code-unit lexicographic). -/
def strLe (a b : String) : Prop := charListLe a.data b.data = true

instance : DecidableRel strLe := fun _ _ => instDecidableEqBool _ _

/-- Companies derived from an idea list as in page.tsx lines 900-905: collect
extracted company names into a Set (first-occurrence dedup) and sort. -/
def companiesOfIdeas (extractCompanies : String → List String)
    (ideas : List IdeaNodeData) : List String :=
  List.insertionSort strLe ((ideas.flatMap fun i => extractCompanies i.episode_title).dedup)

/-- Ranking relation used by every connection-count sort in page.tsx
(comparator (counts.get(b) or 0) - (counts.get(a) or 0)): a precedes b when
b's total connection count does not exceed a's. -/
def rankRel (connections : List IdeaEdgeData) : IdeaNodeData → IdeaNodeData → Prop :=
  fun a b => connCount connections b.id ≤ connCount connections a.id

instance (connections : List IdeaEdgeData) : DecidableRel (rankRel connections) :=
  fun _ _ => Nat.decLe _ _

lemma rankRel_trans (connections : List IdeaEdgeData) : Transitive (rankRel connections) :=
  fun _ _ _ hab hbc => le_trans hbc hab

lemma rankRel_total (connections : List IdeaEdgeData) :
    ∀ a b, rankRel connections a b ∨ rankRel connections b a :=
  fun a b => Nat.le_total (connCount connections b.id) (connCount connections a.id)

/-- Stable descending sort by total connection count, modelling the
Array.prototype.sort calls (stable per ES2019; for the total transitive
comparator the sorted stable order is unique, and insertion sort realises
it). -/
def sortIdeasByConnections (connections : List IdeaEdgeData)
    (ideas : List IdeaNodeData) : List IdeaNodeData :=
  List.insertionSort (rankRel connections) ideas

/-- ideasToShow at the topIdeas level (page.tsx lines 1163-1177): the focused
cluster's ideas (company-filtered when a filter is active), ranked by total
connection count over the entire connection set, truncated to 20. -/
def ideasToShow (extractCompanies : String → List String) (g : GraphData)
    (focusedCluster : ClusterInfo) (selectedCompanies : List String) : List IdeaNodeData :=
  let clusterIdeas :=
    if 0 < selectedCompanies.length then
      (filteredIdeas extractCompanies g selectedCompanies).filter
        fun i => i.cluster_id == some focusedCluster.id
    else g.ideas.filter fun i => i.cluster_id == some focusedCluster.id
  (sortIdeasByConnections g.connections clusterIdeas).take 20

/-- availableCompanies (page.tsx lines 872-906): companies derived from the
ideas relevant to the current view level.  Note that every branch reads the
unfiltered graphData.ideas / getConnectedIdeas, and selectedCompanies is not
an input at all. -/
def availableCompanies (extractCompanies : String → List String) (g : GraphData)
    (viewLevel : ViewLevel) (focusedCluster : Option ClusterInfo)
    (focusedIdea : Option IdeaNodeData) : List String :=
  let relevantIdeas : List IdeaNodeData :=
    if viewLevel = ViewLevel.clusters then g.ideas
    else if viewLevel = ViewLevel.topIdeas then
      match focusedCluster with
      | some fc =>
        (sortIdeasByConnections g.connections
          (g.ideas.filter fun i => i.cluster_id == some fc.id)).take 20
      | none => []
    else if viewLevel = ViewLevel.connectedIdeas then
      match focusedIdea with
      | some fi => fi :: getConnectedIdeas g fi.id
      | none => []
    else if viewLevel = ViewLevel.allIdeas then
      match focusedCluster with
      | some fc => g.ideas.filter fun i => i.cluster_id == some fc.id
      | none => []
    else []
  List.insertionSort strLe
    ((relevantIdeas.flatMap fun i => extractCompanies i.episode_title).dedup)

/-- Inserting an element bounded below by a whole list puts it in front. -/
lemma orderedInsert_eq_cons {α : Type} (r : α → α → Prop) [DecidableRel r]
    (x : α) (l : List α) (h : ∀ y ∈ l, r x y) : List.orderedInsert r x l = x :: l := by
  cases l with
  | nil => rfl
  | cons b t => simp [List.orderedInsert, h b (List.mem_cons_self b t)]

/-- Filtering commutes with ordered insertion of an element kept by the
filter, provided the list is sorted. -/
lemma filter_orderedInsert_pos {α : Type} (r : α → α → Prop) [DecidableRel r]
    (htrans : Transitive r)
    (p : α → Bool) (x : α) (hx : p x = true) :
    ∀ (l : List α), List.Sorted r l →
      (List.orderedInsert r x l).filter p = List.orderedInsert r x (l.filter p) := by
  intro l
  induction l with
  | nil => intro _; simp [hx]
  | cons b t ih =>
    intro hl
    by_cases hrb : r x b
    · cases hpb : p b
      · have hfront : ∀ y ∈ t.filter p, r x y := fun y hy =>
          htrans hrb (List.rel_of_sorted_cons hl y (List.mem_of_mem_filter hy))
        simp [hrb, hx, hpb, orderedInsert_eq_cons r x (t.filter p) hfront]
      · simp [hrb, hx, hpb]
    · cases hpb : p b
      · simp [hrb, hpb, ih hl.of_cons]
      · simp [hrb, hpb, ih hl.of_cons]

/-- Filtering away the inserted element ignores the insertion. -/
lemma filter_orderedInsert_neg {α : Type} (r : α → α → Prop) [DecidableRel r]
    (p : α → Bool) (x : α) (hx : p x = false) :
    ∀ (l : List α), (List.orderedInsert r x l).filter p = l.filter p := by
  intro l
  induction l with
  | nil => simp [hx]
  | cons b t ih =>
    by_cases hrb : r x b
    · simp [hrb, hx]
    · simp [hrb, List.filter_cons, ih]

/-- A stable sort commutes with filtering: sorting a filtered list equals
filtering the sorted list. -/
lemma insertionSort_filter_comm {α : Type} (r : α → α → Prop) [DecidableRel r]
    (htrans : Transitive r) (htot : ∀ a b, r a b ∨ r b a) (p : α → Bool) :
    ∀ (L : List α),
      List.insertionSort r (L.filter p) = (List.insertionSort r L).filter p := by
  intro L
  haveI : IsTotal α r := ⟨htot⟩
  haveI : IsTrans α r := ⟨fun _ _ _ h1 h2 => htrans h1 h2⟩
  induction L with
  | nil => rfl
  | cons a t ih =>
    cases hpa : p a
    · simp [hpa, ih, filter_orderedInsert_neg r p a hpa]
    · simp [hpa, ih, filter_orderedInsert_pos r htrans p a hpa _
        (List.sorted_insertionSort r t)]

/-- On a duplicate-free list, filtering down to the members of a sublist
recovers the sublist itself (sublists inherit the ambient order). -/
lemma filter_mem_sublist {α : Type} [DecidableEq α] {l S : List α}
    (h : List.Sublist l S) : S.Nodup → S.filter (fun x => decide (x ∈ l)) = l := by
  induction h with
  | slnil => intro _; rfl
  | @cons l1 l2 a h ih =>
    intro hnd
    rw [List.nodup_cons] at hnd
    have hna : ¬ (a ∈ l1) := fun hal => hnd.1 (h.subset hal)
    simp [List.filter_cons, hna, ih hnd.2]
  | @cons₂ l1 l2 a h ih =>
    intro hnd
    rw [List.nodup_cons] at hnd
    have hcongr : ∀ x ∈ l2, (decide (x ∈ a :: l1)) = (decide (x ∈ l1)) := by
      intro x hx
      have hxa : ¬ (x = a) := fun hh => hnd.1 (hh ▸ hx)
      simp [List.mem_cons, hxa]
    have hda : (decide (a ∈ a :: l1)) = true := by simp
    rw [List.filter_cons, hda]
    simp only [if_true]
    rw [List.filter_congr hcongr, ih hnd.2]

/-- Two sublists of one duplicate-free list agree on the relative order of
their common elements: restricting each to the members of the other yields
the same list. -/
lemma common_order_eq {α : Type} [DecidableEq α] {S l1 l2 : List α}
    (hnd : S.Nodup) (h1 : List.Sublist l1 S) (h2 : List.Sublist l2 S) :
    l1.filter (fun x => decide (x ∈ l2)) = l2.filter (fun x => decide (x ∈ l1)) := by
  conv_lhs => rw [← filter_mem_sublist h1 hnd]
  conv_rhs => rw [← filter_mem_sublist h2 hnd]
  rw [List.filter_filter, List.filter_filter]
  exact List.filter_congr fun x _ => Bool.and_comm _ _

/-- The topIdeas visible list is a sublist of the master degree-sorted order
of the full idea list, for every company filter. -/
lemma ideasToShow_sublist_sorted (extractCompanies : String → List String)
    (g : GraphData) (C : ClusterInfo) (sel : List String) :
    List.Sublist (ideasToShow extractCompanies g C sel)
      (List.insertionSort (rankRel g.connections) g.ideas) := by
  simp only [ideasToShow, sortIdeasByConnections]
  by_cases h : 0 < sel.length
  · rw [if_pos h]
    have h0 : ¬ (sel.length = 0) := by omega
    simp only [filteredIdeas]
    rw [if_neg h0, List.filter_filter,
      insertionSort_filter_comm _ (rankRel_trans g.connections) (rankRel_total g.connections)]
    exact (List.take_sublist _ _).trans (List.filter_sublist _)
  · rw [if_neg h,
      insertionSort_filter_comm _ (rankRel_trans g.connections) (rankRel_total g.connections)]
    exact (List.take_sublist _ _).trans (List.filter_sublist _)

/-- C2: for one cluster and any two company-filter sets, the degree ranking
shown at the topIdeas level lists the ideas common to both runs in the same
relative order: each run restricted to the other run's members is the same
list.  The ranking uses connection counts over the entire unfiltered
connection set, so a filter only selects a sublist of one master order. -/
theorem C2_ranking_filter_invariant (extractCompanies : String → List String)
    (g : GraphData) (C : ClusterInfo) (sel1 sel2 : List String)
    (hnd : g.ideas.Nodup) :
    (ideasToShow extractCompanies g C sel1).filter
        (fun i => decide (i ∈ ideasToShow extractCompanies g C sel2))
      = (ideasToShow extractCompanies g C sel2).filter
        (fun i => decide (i ∈ ideasToShow extractCompanies g C sel1)) := by
  have hS : (List.insertionSort (rankRel g.connections) g.ideas).Nodup :=
    ((List.perm_insertionSort (rankRel g.connections) g.ideas).nodup_iff).mpr hnd
  exact common_order_eq hS
    (ideasToShow_sublist_sorted extractCompanies g C sel1)
    (ideasToShow_sublist_sorted extractCompanies g C sel2)

/-- Extraction function for the C2 witness graph. -/
def exC2 : String → List String := fun t => if t == "t1" then ["A"] else ["B"]

/-- Focused cluster of the C2 witness graph. -/
def clusterC2 : ClusterInfo := { id := "c", color := "#fff", idea_count := 3 }

/-- C2 witness graph: three ideas in one cluster, one connection making i2 and
i3 outrank i1, and a company filter that can drop i1. -/
def gC2 : GraphData :=
  { ideas := [{ id := "i1", cluster_id := some "c", episode_title := "t1" },
              { id := "i2", cluster_id := some "c", episode_title := "t2" },
              { id := "i3", cluster_id := some "c", episode_title := "t3" }],
    connections := [{ source := "i2", target := "i3",
                      connection_type := "similar", strength := 0.8 }],
    clusters := [clusterC2] }

/-- C2 witness: the common-order equality instantiated on the concrete graph
with the empty filter versus the filter [B]. -/
theorem C2_ranking_filter_invariant_witness :
    (ideasToShow exC2 gC2 clusterC2 []).filter
        (fun i => decide (i ∈ ideasToShow exC2 gC2 clusterC2 ["B"]))
      = (ideasToShow exC2 gC2 clusterC2 ["B"]).filter
        (fun i => decide (i ∈ ideasToShow exC2 gC2 clusterC2 [])) :=
  C2_ranking_filter_invariant exC2 gC2 clusterC2 [] ["B"] (by decide)

/-- Extraction function for the C3 graphs: episode t1 maps to company A,
every other episode to company B. -/
def exC3 : String → List String := fun t => if t == "t1" then ["A"] else ["B"]

/-- Focused cluster of the C3 graph. -/
def clusterC3 : ClusterInfo := { id := "c", color := "#fff", idea_count := 2 }

/-- C3 graph: two ideas in the focused cluster with different companies. -/
def gC3 : GraphData :=
  { ideas := [{ id := "i1", cluster_id := some "c", episode_title := "t1" },
              { id := "i2", cluster_id := some "c", episode_title := "t2" }],
    connections := [],
    clusters := [clusterC3] }

/-- C3 counterexample: at the topIdeas level with the company filter [A]
active, availableCompanies (computed from the unfiltered top-20 of the
cluster) is [A, B], while the companies of the level's visible idea subset
(the filtered ideasToShow) are just [A] — so availableCompanies is not
derived from the visible subset. -/
theorem C3_counterexample :
    ¬ (availableCompanies exC3 gC3 ViewLevel.topIdeas (some clusterC3) none
        = companiesOfIdeas exC3 (ideasToShow exC3 gC3 clusterC3 ["A"])) := by
  decide

/-- C3 (amended): availableCompanies is recomputed from the view state but
always from the unfiltered dataset (the active company filter is not an input
at all): all ideas at the clusters level, the unfiltered top-20 of the focused
cluster at topIdeas (which coincides with the visible subset exactly when no
filter is active), the focused idea plus all its unfiltered connected ideas at
connectedIdeas, and the focused cluster's full idea list at allIdeas. -/
theorem C3_available_companies_unfiltered_scope
    (extractCompanies : String → List String) (g : GraphData) (C : ClusterInfo)
    (I : IdeaNodeData) (fc : Option ClusterInfo) (fi : Option IdeaNodeData) :
    availableCompanies extractCompanies g ViewLevel.clusters fc fi
      = companiesOfIdeas extractCompanies g.ideas
    ∧ availableCompanies extractCompanies g ViewLevel.topIdeas (some C) fi
      = companiesOfIdeas extractCompanies (ideasToShow extractCompanies g C [])
    ∧ availableCompanies extractCompanies g ViewLevel.connectedIdeas fc (some I)
      = companiesOfIdeas extractCompanies (I :: getConnectedIdeas g I.id)
    ∧ availableCompanies extractCompanies g ViewLevel.allIdeas (some C) fi
      = companiesOfIdeas extractCompanies
          (g.ideas.filter fun i => i.cluster_id == some C.id) := by
  exact ⟨rfl, rfl, rfl, rfl⟩

/-- Output node record for the rendering collaborator (id, position, style
payload; callbacks are not modelled). -/
structure GNode where
  id : String
  pos : Pt
  color : String
  size : String
  isCenter : Bool
deriving DecidableEq, Repr, Inhabited

/-- Output edge record (id, endpoints, chosen anchor handles, style). -/
structure GEdge where
  id : String
  source : String
  target : String
  sourceHandle : String
  targetHandle : String
  animated : Bool
  stroke : String
  strokeWidth : ℚ
  strokeDasharray : Option String
  opacity : ℚ
deriving DecidableEq, Repr, Inhabited

/-- getStrokeWidth (page.tsx lines 249-254): normalize strength from the
0.5-1.0 range into [0,1] (clamped) and map onto 2-6 px. -/
def getStrokeWidth (strength : ℚ) : ℚ :=
  let normalized := max 0 (min 1 ((strength - 0.5) / 0.5))
  2 + normalized * 4

/-- getNearestHandles (page.tsx lines 256-289): the angle from source to
target, quantized into four 90-degree sectors, selects the anchor handles.
Math.atan2 (radians) and Math.PI are abstract parameters. -/
def getNearestHandles (atan2Q : ℚ → ℚ → ℚ) (piQ : ℚ)
    (sourcePos targetPos : Pt) : String × String :=
  let dx := targetPos.x - sourcePos.x
  let dy := targetPos.y - sourcePos.y
  let angle := atan2Q dy dx * (180 / piQ)
  if -45 ≤ angle ∧ angle < 45 then ("right-source", "left")
  else if 45 ≤ angle ∧ angle < 135 then ("bottom-source", "top")
  else if -135 ≤ angle ∧ angle < -45 then ("top-source", "bottom")
  else ("left-source", "right")

/-- The opposite node side for each source handle (right faces left, bottom
faces top, top faces bottom, left faces right). -/
def oppositeHandle (h : String) : String :=
  if h == "right-source" then "left"
  else if h == "bottom-source" then "top"
  else if h == "top-source" then "bottom"
  else "right"

/-- colorMap.get(key) with a fallback (page.tsx lines 1028, 1055, 1094,
1131); the Map is modelled as an association list. -/
def colorFor (colorMap : List (String × String)) (key : String)
    (fallback : String) : String :=
  match colorMap.find? (fun kv => kv.1 == key) with
  | some kv => kv.2
  | none => fallback

/-- positionMap.get(id) over the freshly built node list (page.tsx lines
1188, 1225, 1267). -/
def posOf (nodes : List GNode) (nid : String) : Option Pt :=
  (nodes.find? fun nd => nd.id == nid).map fun nd => nd.pos

/-- graphData.connections.find for the edge between the focused idea and a
connected idea, in either direction (page.tsx lines 1229-1233). -/
def findConnection (connections : List IdeaEdgeData) (aId bId : String) :
    Option IdeaEdgeData :=
  connections.find? fun c =>
    (c.source == aId && c.target == bId) || (c.target == aId && c.source == bId)

/-- One rendered edge of the topIdeas view (page.tsx lines 1190-1213):
handles from the quantized angle between the stored node positions, animated
red dashed fixed-width style for contradictory connections, strength-scaled
solid style for similar ones. -/
def topIdeaEdge (atan2Q : ℚ → ℚ → ℚ) (piQ : ℚ) (nodes : List GNode)
    (idx : ℕ) (conn : IdeaEdgeData) : GEdge :=
  let sourcePos := posOf nodes conn.source
  let targetPos := posOf nodes conn.target
  let handles :=
    match sourcePos, targetPos with
    | some sp, some tp => getNearestHandles atan2Q piQ sp tp
    | _, _ => ("bottom-source", "top")
  { id := "edge-" ++ toString idx,
    source := conn.source,
    target := conn.target,
    sourceHandle := handles.1,
    targetHandle := handles.2,
    animated := conn.connection_type == "contradictory",
    stroke := if conn.connection_type == "contradictory" then "#dc2626" else "#1f2937",
    strokeWidth := if conn.connection_type == "contradictory" then 3
      else getStrokeWidth conn.strength,
    strokeDasharray := if conn.connection_type == "contradictory" then some "6,6" else none,
    opacity := 0.6 }

/-- The edge list of the topIdeas view, one edge per relevant connection. -/
def topIdeasEdges (atan2Q : ℚ → ℚ → ℚ) (piQ : ℚ)
    (relevantConnections : List IdeaEdgeData) (nodes : List GNode) : List GEdge :=
  relevantConnections.enum.map fun ic => topIdeaEdge atan2Q piQ nodes ic.1 ic.2

/-- C6: the source-to-target angle is quantized into four 90-degree sectors
selecting the handles (right/left, bottom/top, top/bottom, left/right), and
in every case the target entry handle is the side opposite the source exit
handle. -/
theorem C6_edge_handle_sectors (atan2Q : ℚ → ℚ → ℚ) (piQ : ℚ) (s t : Pt) :
    ((-45 ≤ atan2Q (t.y - s.y) (t.x - s.x) * (180 / piQ)
        ∧ atan2Q (t.y - s.y) (t.x - s.x) * (180 / piQ) < 45) →
      getNearestHandles atan2Q piQ s t = ("right-source", "left"))
    ∧ ((45 ≤ atan2Q (t.y - s.y) (t.x - s.x) * (180 / piQ)
        ∧ atan2Q (t.y - s.y) (t.x - s.x) * (180 / piQ) < 135) →
      getNearestHandles atan2Q piQ s t = ("bottom-source", "top"))
    ∧ ((-135 ≤ atan2Q (t.y - s.y) (t.x - s.x) * (180 / piQ)
        ∧ atan2Q (t.y - s.y) (t.x - s.x) * (180 / piQ) < -45) →
      getNearestHandles atan2Q piQ s t = ("top-source", "bottom"))
    ∧ ((atan2Q (t.y - s.y) (t.x - s.x) * (180 / piQ) < -135
        ∨ 135 ≤ atan2Q (t.y - s.y) (t.x - s.x) * (180 / piQ)) →
      getNearestHandles atan2Q piQ s t = ("left-source", "right"))
    ∧ (getNearestHandles atan2Q piQ s t).2
        = oppositeHandle (getNearestHandles atan2Q piQ s t).1 := by
  simp only [getNearestHandles]
  refine ⟨?_, ?_, ?_, ?_, ?_⟩
  · intro h
    rw [if_pos h]
  · intro h
    rw [if_neg (fun hc => absurd h.1 (not_le.mpr hc.2)), if_pos h]
  · intro h
    rw [if_neg (fun hc => absurd hc.1 (not_le.mpr h.2)),
      if_neg (fun hc => absurd hc.1 (not_le.mpr (lt_trans h.2 (by norm_num)))), if_pos h]
  · intro h
    rcases h with h | h
    · rw [if_neg (fun hc => absurd hc.1 (not_le.mpr (lt_trans h (by norm_num)))),
        if_neg (fun hc => absurd hc.1 (not_le.mpr (lt_trans h (by norm_num)))),
        if_neg (fun hc => absurd hc.1 (not_le.mpr h))]
    · rw [if_neg (fun hc => absurd h (not_le.mpr (lt_of_lt_of_le hc.2 (by norm_num)))),
        if_neg (fun hc => absurd h (not_le.mpr hc.2)),
        if_neg (fun hc => absurd h (not_le.mpr (lt_of_lt_of_le hc.2 (by norm_num))))]
  · split_ifs <;> rfl

/-- C6 witness: with a stub atan2 returning 0 and PI modelled as 1, a target
directly derived angle 0 lies in the first sector, selecting right/left. -/
theorem C6_edge_handle_sectors_witness :
    getNearestHandles (fun _ _ => 0) 1 { x := 0, y := 0 } { x := 1, y := 0 }
      = ("right-source", "left") :=
  (C6_edge_handle_sectors (fun _ _ => 0) 1 { x := 0, y := 0 } { x := 1, y := 0 }).1
    (by norm_num)

/-- C8: getStrokeWidth is monotone non-decreasing in strength and bounded in
the fixed pixel range [2, 6] (the clamped linear map); every drawn similar
edge carries exactly that width with no dash pattern and no animation, while
every contradictory edge carries the fixed width 3, the fixed 6,6 dash
pattern and animation, independently of its strength; and the topIdeas edge
list is one such styled edge per relevant connection. -/
theorem C8_stroke_style (atan2Q : ℚ → ℚ → ℚ) (piQ : ℚ) (nodes : List GNode)
    (conns : List IdeaEdgeData) (idx : ℕ) (conn : IdeaEdgeData)
    (s t : ℚ) (hst : s ≤ t) :
    getStrokeWidth s ≤ getStrokeWidth t
    ∧ (2 ≤ getStrokeWidth s ∧ getStrokeWidth s ≤ 6)
    ∧ topIdeasEdges atan2Q piQ conns nodes
        = conns.enum.map (fun ic => topIdeaEdge atan2Q piQ nodes ic.1 ic.2)
    ∧ (conn.connection_type = "contradictory" →
        (topIdeaEdge atan2Q piQ nodes idx conn).strokeWidth = 3
        ∧ (topIdeaEdge atan2Q piQ nodes idx conn).strokeDasharray = some "6,6"
        ∧ (topIdeaEdge atan2Q piQ nodes idx conn).animated = true)
    ∧ (¬ (conn.connection_type = "contradictory") →
        (topIdeaEdge atan2Q piQ nodes idx conn).strokeWidth
            = getStrokeWidth conn.strength
        ∧ (topIdeaEdge atan2Q piQ nodes idx conn).strokeDasharray = none
        ∧ (topIdeaEdge atan2Q piQ nodes idx conn).animated = false) := by
  have hclamp0 : ∀ q : ℚ, (0:ℚ) ≤ max 0 (min 1 ((q - 0.5) / 0.5)) := fun q => le_max_left 0 _
  have hclamp1 : ∀ q : ℚ, max 0 (min 1 ((q - 0.5) / 0.5)) ≤ 1 := fun q =>
    max_le (by norm_num) (min_le_left 1 _)
  refine ⟨?_, ⟨?_, ?_⟩, rfl, ?_, ?_⟩
  · have h1 : (s - 0.5) / 0.5 ≤ (t - 0.5) / 0.5 :=
      (div_le_div_iff_of_pos_right (by norm_num)).mpr (by linarith)
    have h2 : max 0 (min 1 ((s - 0.5) / 0.5)) ≤ max 0 (min 1 ((t - 0.5) / 0.5)) :=
      max_le_max (le_refl 0) (min_le_min (le_refl 1) h1)
    simp only [getStrokeWidth]
    linarith
  · simp only [getStrokeWidth]
    have := hclamp0 s
    linarith
  · simp only [getStrokeWidth]
    have := hclamp1 s
    linarith
  · intro hc
    have hb : (conn.connection_type == "contradictory") = true := by
      simp [hc]
    refine ⟨?_, ?_, ?_⟩ <;> simp [topIdeaEdge, hb]
  · intro hc
    have hb : (conn.connection_type == "contradictory") = false := by
      simp [hc]
    refine ⟨?_, ?_, ?_⟩ <;> simp [topIdeaEdge, hb]

/-- C8 witness: concrete strengths 0.6 and 0.8 instantiate the monotonicity
hypothesis, and a concrete contradictory connection receives the fixed
3-pixel dashed animated style. -/
theorem C8_stroke_style_witness :
    getStrokeWidth 0.6 ≤ getStrokeWidth 0.8
    ∧ (topIdeaEdge (fun _ _ => 0) 1 [] 0
        { source := "a", target := "b", connection_type := "contradictory",
          strength := 0.9 }).strokeWidth = 3 := by
  have h := C8_stroke_style (fun _ _ => 0) 1 [] [] 0
    { source := "a", target := "b", connection_type := "contradictory", strength := 0.9 }
    0.6 0.8 (by norm_num)
  exact ⟨h.1, (h.2.2.2.1 rfl).1⟩

/-- Math.ceil(Math.sqrt(count)) for a natural count. -/
def ceilSqrtNat (n : ℕ) : ℕ :=
  if Nat.sqrt n * Nat.sqrt n = n then Nat.sqrt n else Nat.sqrt n + 1

/-- Math.ceil(count / cols) for naturals. -/
def ceilDivNat (a b : ℕ) : ℕ := (a + b - 1) / b

/-- positions[i] with the JavaScript out-of-range access modelled by a zero
default (all modelled accesses are in range). -/
def getPt (ps : List Pt) (i : ℕ) : Pt := ps.getD i { x := 0, y := 0 }

/-- Initial grid seeding of forceDirectedLayout (page.tsx lines 298-305). -/
def initPositions (count cols : ℕ) (spacing : ℚ) : List Pt :=
  (List.range count).map fun i =>
    { x := ((i % cols : ℕ) : ℚ) * spacing - (cols : ℚ) * spacing / 2,
      y := ((i / cols : ℕ) : ℚ) * spacing - ((ceilDivNat count cols : ℕ) : ℚ) * spacing / 2 }

/-- The ordered (i, j) pairs visited by the nested repulsion loops
(i from 0, j from i+1). -/
def pairIndices (count : ℕ) : List (ℕ × ℕ) :=
  (List.range count).flatMap fun i =>
    ((List.range count).filter fun j => i < j).map fun j => (i, j)

/-- One repulsion update (page.tsx lines 316-332): when the (sqrt-or-1)
distance is below the minimum, push the pair apart by an inverse-square force.
Math.sqrt is the abstract parameter sqrtQ; the JavaScript expression
Math.sqrt(distSq) with the falsy-zero fallback to 1 is the if-test. -/
def applyRepulsion (sqrtQ : ℚ → ℚ) (repulsionStrength minDist : ℚ) (ps : List Pt)
    (forces : List Pt) (ij : ℕ × ℕ) : List Pt :=
  let pI := getPt ps ij.1
  let pJ := getPt ps ij.2
  let dx := pJ.x - pI.x
  let dy := pJ.y - pI.y
  let distSq := dx * dx + dy * dy
  let dist := if sqrtQ distSq = 0 then 1 else sqrtQ distSq
  if dist < minDist then
    let force := repulsionStrength / distSq
    let fx := dx / dist * force
    let fy := dy / dist * force
    let f1 := getPt forces ij.1
    let forces1 := forces.set ij.1 { x := f1.x - fx, y := f1.y - fy }
    let f2 := getPt forces1 ij.2
    forces1.set ij.2 { x := f2.x + fx, y := f2.y + fy }
  else forces

/-- One simulation iteration (page.tsx lines 311-346): zeroed forces, pairwise
repulsion, a linear pull toward the centre, then damped position updates.
The centre pull is accumulated after the pair loop; over exact rationals the
accumulation order does not change the sum. -/
def simStep (sqrtQ : ℚ → ℚ) (count : ℕ) (repulsionStrength minDist centerPull damping : ℚ)
    (ps : List Pt) : List Pt :=
  let forces0 := (List.range count).map fun _ => ({ x := 0, y := 0 } : Pt)
  let forces1 := (pairIndices count).foldl
    (applyRepulsion sqrtQ repulsionStrength minDist ps) forces0
  let forces := (List.range count).foldl (fun fs i =>
    let f := getPt fs i
    let p := getPt ps i
    fs.set i { x := f.x - p.x * centerPull, y := f.y - p.y * centerPull }) forces1
  (List.range count).map fun i =>
    let p := getPt ps i
    let f := getPt forces i
    { x := p.x + f.x * damping, y := p.y + f.y * damping }

/-- forceDirectedLayout (page.tsx lines 291-349): fixed grid seeding followed
by a fixed number of damped iterations. -/
def forceDirectedLayout (sqrtQ : ℚ → ℚ) (count : ℕ) (nodeWidth nodeHeight : ℚ)
    (iterations : ℕ) : List Pt :=
  let cols := ceilSqrtNat count
  let spacing := max nodeWidth nodeHeight * 1.8
  let repulsionStrength := spacing * spacing * 2
  let minDist := spacing * 0.9
  let centerPull : ℚ := 0.01
  let damping : ℚ := 0.3
  (List.range iterations).foldl
    (fun ps _ => simStep sqrtQ count repulsionStrength minDist centerPull damping ps)
    (initPositions count cols spacing)

lemma simStep_length (sqrtQ : ℚ → ℚ) (count : ℕ) (rs ms cp dp : ℚ) (ps : List Pt) :
    (simStep sqrtQ count rs ms cp dp ps).length = count := by
  simp [simStep]

lemma forceDirectedLayout_length (sqrtQ : ℚ → ℚ) (count : ℕ)
    (nodeWidth nodeHeight : ℚ) (iterations : ℕ) :
    (forceDirectedLayout sqrtQ count nodeWidth nodeHeight iterations).length = count := by
  simp only [forceDirectedLayout]
  have key : ∀ (l : List ℕ) (ps : List Pt), ps.length = count →
      ((l.foldl (fun ps2 _ => simStep sqrtQ count
        (max nodeWidth nodeHeight * 1.8 * (max nodeWidth nodeHeight * 1.8) * 2)
        (max nodeWidth nodeHeight * 1.8 * 0.9) 0.01 0.3 ps2) ps).length = count) := by
    intro l
    induction l with
    | nil => intro ps h; exact h
    | cons a l2 ih => intro ps h; exact ih _ (simStep_length ..)
  exact key _ _ (by simp [initPositions])

/-- The force-simulation positions of the connectedIdeas view (page.tsx line
1063). -/
def connPositions (sqrtQ : ℚ → ℚ) (n : ℕ) : List Pt :=
  forceDirectedLayout sqrtQ n 605 275 60

/-- The centroid of the simulated point cloud (page.tsx lines 1065-1073; the
accumulating forEach is modelled by map-and-sum; minY is computed by the
source but never used). -/
def connCentroid (sqrtQ : ℚ → ℚ) (n : ℕ) : Pt :=
  { x := ((connPositions sqrtQ n).map fun p => p.x).sum / (n : ℚ),
    y := ((connPositions sqrtQ n).map fun p => p.y).sum / (n : ℚ) }

/-- layoutConnectedIdeas (page.tsx lines 1039-1102): the focused idea pinned
at the origin, each connected idea placed at its simulated position re-centred
on the cloud centroid and radially pushed outward by the fixed distance 530
(with the sqrt-or-1 fallback on the centred radius). -/
def layoutConnectedIdeas (sqrtQ : ℚ → ℚ) (centerIdea : IdeaNodeData)
    (connectedIdeas : List IdeaNodeData) (cluster : ClusterInfo)
    (colorMap : List (String × String)) : List GNode :=
  let n := connectedIdeas.length
  let centerNode : GNode :=
    { id := centerIdea.id, pos := { x := 0, y := 0 },
      color := colorFor colorMap (centerIdea.cluster_id.getD "") cluster.color,
      size := "large", isCenter := true }
  let positions := connPositions sqrtQ n
  let centroid := connCentroid sqrtQ n
  let pushDistance : ℚ := 530
  centerNode :: connectedIdeas.enum.map fun ii =>
    let p := getPt positions ii.1
    let x0 := p.x - centroid.x
    let y0 := p.y - centroid.y
    let dist := if sqrtQ (x0 * x0 + y0 * y0) = 0 then 1 else sqrtQ (x0 * x0 + y0 * y0)
    let scale := (dist + pushDistance) / dist
    { id := ii.2.id, pos := { x := x0 * scale, y := y0 * scale },
      color := colorFor colorMap (ii.2.cluster_id.getD "") "#6366f1",
      size := "large", isCenter := false }

/-- One rendered edge of the connectedIdeas view (page.tsx lines 1228-1255):
centre-to-connected edge; the JavaScript strength fallback
(conn strength or 0.5, with 0 falsy) is modelled explicitly. -/
def connectedIdeaEdge (atan2Q : ℚ → ℚ → ℚ) (piQ : ℚ) (g : GraphData)
    (focusedIdea : IdeaNodeData) (nodes : List GNode) (idx : ℕ)
    (idea : IdeaNodeData) : GEdge :=
  let conn := findConnection g.connections focusedIdea.id idea.id
  let sourcePos := posOf nodes focusedIdea.id
  let targetPos := posOf nodes idea.id
  let handles :=
    match sourcePos, targetPos with
    | some sp, some tp => getNearestHandles atan2Q piQ sp tp
    | _, _ => ("bottom-source", "top")
  let isContra :=
    match conn with
    | some c => c.connection_type == "contradictory"
    | none => false
  { id := "edge-" ++ toString idx,
    source := focusedIdea.id,
    target := idea.id,
    sourceHandle := handles.1,
    targetHandle := handles.2,
    animated := isContra,
    stroke := if isContra then "#dc2626" else "#1f2937",
    strokeWidth := if isContra then 3 else
      getStrokeWidth (match conn with
        | some c => if c.strength = 0 then 0.5 else c.strength
        | none => 0.5),
    strokeDasharray := if isContra then some "6,6" else none,
    opacity := 0.7 }

/-- The connectedIdeas edge list: exactly one edge per (filtered) connected
idea. -/
def connectedIdeasEdges (atan2Q : ℚ → ℚ → ℚ) (piQ : ℚ) (g : GraphData)
    (focusedIdea : IdeaNodeData) (connectedIdeas : List IdeaNodeData)
    (nodes : List GNode) : List GEdge :=
  connectedIdeas.enum.map fun ii =>
    connectedIdeaEdge atan2Q piQ g focusedIdea nodes ii.1 ii.2

/-- layoutTopIdeas (page.tsx lines 972-1037): rank all given ideas by total
connection count over allConnections, place rank 0 at the origin, ranks 1-6
on the inner ring and the rest on the outer ring, evenly spaced.  The
relevantConnections parameter is accepted but, as in the source, unused. -/
def layoutTopIdeas (cosQ sinQ : ℚ → ℚ) (piQ : ℚ) (ideas : List IdeaNodeData)
    (cluster : ClusterInfo) (colorMap : List (String × String))
    (relevantConnections allConnections : List IdeaEdgeData) : List GNode :=
  let n := ideas.length
  if n = 0 then []
  else
    let sortedIdeas := List.insertionSort (rankRel allConnections) ideas
    let innerRingRadius : ℚ := 790
    let outerRingRadius : ℚ := 1430
    let innerRingCount := min 6 (n - 1)
    let outerRingCount := n - 1 - innerRingCount
    sortedIdeas.enum.map fun ii =>
      let pos : Pt :=
        if ii.1 = 0 then { x := 0, y := 0 }
        else if ii.1 ≤ innerRingCount then
          let angle := (2 * piQ * ((ii.1 : ℚ) - 1)) / (innerRingCount : ℚ) - piQ / 2
          { x := innerRingRadius * cosQ angle, y := innerRingRadius * sinQ angle }
        else
          let outerIdx := ii.1 - 1 - innerRingCount
          let angle := (2 * piQ * (outerIdx : ℚ)) / (outerRingCount : ℚ) - piQ / 2
          { x := outerRingRadius * cosQ angle, y := outerRingRadius * sinQ angle }
      { id := ii.2.id, pos := pos,
        color := colorFor colorMap (ii.2.cluster_id.getD "") cluster.color,
        size := "large", isCenter := decide (ii.1 = 0) }

/-- The push scale applied to a re-centred connected-idea position is strictly
positive whenever the sqrt model is nonnegative. -/
lemma push_scale_pos (sqrtQ : ℚ → ℚ) (hs : ∀ q, 0 ≤ sqrtQ q) (d2 : ℚ) :
    0 < ((if sqrtQ d2 = 0 then 1 else sqrtQ d2) + 530)
      / (if sqrtQ d2 = 0 then 1 else sqrtQ d2) := by
  have hd : 0 < (if sqrtQ d2 = 0 then 1 else sqrtQ d2) := by
    by_cases h : sqrtQ d2 = 0
    · simp [h]
    · rw [if_neg h]
      exact lt_of_le_of_ne (hs d2) (Ne.symm h)
  exact div_pos (by linarith) hd

/-- Element access through an enumerating map. -/
lemma enum_map_getD {α β : Type} [Inhabited β] (l : List α) (f : ℕ × α → β)
    (i : ℕ) (hi : i < l.length) :
    (l.enum.map f).getD i default = f (i, l[i]) := by
  rw [List.getD_eq_getElem?_getD, List.getElem?_map, List.getElem?_enum,
    List.getElem?_eq_getElem hi]
  rfl

/-- C5 (amended): the focused idea is always the first node and sits at the
origin whatever the (filtered) connected set is; exactly one edge is built
per connected idea surviving the filter; and every surrounding node's
position is its re-centred simulated position scaled by a strictly positive
push factor, so a node whose re-centred offset is nonzero never lands at the
pinned centre — while a node sitting exactly on the cloud centroid (as the
counterexample shows for a single connected idea) stays at the origin. -/
theorem C5_connected_layout (sqrtQ : ℚ → ℚ) (hs : ∀ q, 0 ≤ sqrtQ q)
    (centerIdea : IdeaNodeData) (connectedIdeas : List IdeaNodeData)
    (cluster : ClusterInfo) (colorMap : List (String × String)) :
    (layoutConnectedIdeas sqrtQ centerIdea connectedIdeas cluster colorMap).head?
      = some { id := centerIdea.id, pos := { x := 0, y := 0 },
               color := colorFor colorMap (centerIdea.cluster_id.getD "") cluster.color,
               size := "large", isCenter := true }
    ∧ (∀ (atan2Q : ℚ → ℚ → ℚ) (piQ : ℚ) (g : GraphData) (nodes : List GNode),
        (connectedIdeasEdges atan2Q piQ g centerIdea connectedIdeas nodes).length
          = connectedIdeas.length)
    ∧ (∀ i, i < connectedIdeas.length →
        ∃ sc : ℚ, 0 < sc
          ∧ ((layoutConnectedIdeas sqrtQ centerIdea connectedIdeas cluster colorMap).getD
                (i + 1) default).pos
            = { x := ((getPt (connPositions sqrtQ connectedIdeas.length) i).x
                      - (connCentroid sqrtQ connectedIdeas.length).x) * sc,
                y := ((getPt (connPositions sqrtQ connectedIdeas.length) i).y
                      - (connCentroid sqrtQ connectedIdeas.length).y) * sc }
          ∧ (¬ ((getPt (connPositions sqrtQ connectedIdeas.length) i).x
                    - (connCentroid sqrtQ connectedIdeas.length).x = 0
                ∧ (getPt (connPositions sqrtQ connectedIdeas.length) i).y
                    - (connCentroid sqrtQ connectedIdeas.length).y = 0) →
              ¬ (((layoutConnectedIdeas sqrtQ centerIdea connectedIdeas cluster colorMap).getD
                    (i + 1) default).pos = { x := 0, y := 0 }))) := by
  refine ⟨rfl, ?_, ?_⟩
  · intro atan2Q piQ g nodes
    simp [connectedIdeasEdges]
  · intro i hi
    have hnode : ((layoutConnectedIdeas sqrtQ centerIdea connectedIdeas cluster colorMap).getD
          (i + 1) default)
        = (let p := getPt (connPositions sqrtQ connectedIdeas.length) i
           let x0 := p.x - (connCentroid sqrtQ connectedIdeas.length).x
           let y0 := p.y - (connCentroid sqrtQ connectedIdeas.length).y
           let dist := if sqrtQ (x0 * x0 + y0 * y0) = 0 then 1 else sqrtQ (x0 * x0 + y0 * y0)
           let scale := (dist + 530) / dist
           ({ id := connectedIdeas[i].id, pos := { x := x0 * scale, y := y0 * scale },
              color := colorFor colorMap (connectedIdeas[i].cluster_id.getD "") "#6366f1",
              size := "large", isCenter := false } : GNode)) := by
      simp only [layoutConnectedIdeas, List.getD_cons_succ]
      rw [enum_map_getD _ _ i hi]
    rw [hnode]
    refine ⟨_, push_scale_pos sqrtQ hs _, rfl, ?_⟩
    intro hne hzero
    simp only [Pt.mk.injEq] at hzero
    have hscne : ¬ (((if sqrtQ
          (((getPt (connPositions sqrtQ connectedIdeas.length) i).x
              - (connCentroid sqrtQ connectedIdeas.length).x)
            * ((getPt (connPositions sqrtQ connectedIdeas.length) i).x
              - (connCentroid sqrtQ connectedIdeas.length).x)
          + ((getPt (connPositions sqrtQ connectedIdeas.length) i).y
              - (connCentroid sqrtQ connectedIdeas.length).y)
            * ((getPt (connPositions sqrtQ connectedIdeas.length) i).y
              - (connCentroid sqrtQ connectedIdeas.length).y)) = 0 then 1
        else sqrtQ _) + 530) / _ = 0) :=
      ne_of_gt (push_scale_pos sqrtQ hs _)
    exact hne ⟨by
        rcases mul_eq_zero.mp hzero.1 with h | h
        · exact h
        · exact absurd h hscne,
      by
        rcases mul_eq_zero.mp hzero.2 with h | h
        · exact h
        · exact absurd h hscne⟩

/-- Focused idea of the C5 scenarios. -/
def ideaC5 : IdeaNodeData := { id := "center", cluster_id := some "c", episode_title := "t" }

/-- First connected idea of the C5 scenarios. -/
def ideaC5b : IdeaNodeData := { id := "n1", cluster_id := some "c", episode_title := "t2" }

/-- Second connected idea of the C5 witness. -/
def ideaC5c : IdeaNodeData := { id := "n2", cluster_id := some "c", episode_title := "t3" }

/-- Cluster of the C5 scenarios. -/
def clusterC5 : ClusterInfo := { id := "c", color := "#fff", idea_count := 3 }

/-- C5 witness: the scaling decomposition instantiated with a nonnegative
sqrt stub on a concrete two-idea connected set. -/
theorem C5_connected_layout_witness :
    ∃ sc : ℚ, 0 < sc
      ∧ ((layoutConnectedIdeas (fun _ => 1000) ideaC5 [ideaC5b, ideaC5c] clusterC5 []).getD
            (0 + 1) default).pos
        = { x := ((getPt (connPositions (fun _ => 1000) [ideaC5b, ideaC5c].length) 0).x
                  - (connCentroid (fun _ => 1000) [ideaC5b, ideaC5c].length).x) * sc,
            y := ((getPt (connPositions (fun _ => 1000) [ideaC5b, ideaC5c].length) 0).y
                  - (connCentroid (fun _ => 1000) [ideaC5b, ideaC5c].length).y) * sc }
      ∧ (¬ ((getPt (connPositions (fun _ => 1000) [ideaC5b, ideaC5c].length) 0).x
                - (connCentroid (fun _ => 1000) [ideaC5b, ideaC5c].length).x = 0
            ∧ (getPt (connPositions (fun _ => 1000) [ideaC5b, ideaC5c].length) 0).y
                - (connCentroid (fun _ => 1000) [ideaC5b, ideaC5c].length).y = 0) →
          ¬ (((layoutConnectedIdeas (fun _ => 1000) ideaC5 [ideaC5b, ideaC5c] clusterC5 []).getD
                (0 + 1) default).pos = { x := 0, y := 0 })) :=
  (C5_connected_layout (fun _ => 1000) (fun _ => by norm_num) ideaC5 [ideaC5b, ideaC5c]
    clusterC5 []).2.2 0 (by simp)

/-- Zero stub for Math.sqrt; on the single-connection trace below the only
argument ever passed to it is 0, where Math.sqrt also returns 0. -/
def sqrtZero : ℚ → ℚ := fun _ => 0

/-- C5 counterexample: with exactly one connected idea the simulated cloud's
centroid is the point itself, the re-centred offset is zero, and the radial
push multiplies a zero vector — the surrounding node lands exactly at the
pinned centre node's position (both at the origin). -/
theorem C5_counterexample :
    ((layoutConnectedIdeas sqrtZero ideaC5 [ideaC5b] clusterC5 []).getD 1 default).pos
      = { x := 0, y := 0 }
    ∧ ((layoutConnectedIdeas sqrtZero ideaC5 [ideaC5b] clusterC5 []).getD 0 default).pos
      = { x := 0, y := 0 } := by
  constructor
  · obtain ⟨q, hq⟩ := List.length_eq_one.mp (forceDirectedLayout_length sqrtZero 1 605 275 60)
    have hcp : connPositions sqrtZero 1 = [q] := hq
    have h1 : ([ideaC5b] : List IdeaNodeData).length = 1 := rfl
    simp only [layoutConnectedIdeas, List.getD_cons_succ, h1]
    rw [enum_map_getD _ _ 0 (by simp)]
    simp [connCentroid, hcp, getPt, sqrtZero]
  · rfl

/-- Fixed ring capacity sequence of the allIdeas layout (page.tsx line 1111). -/
def ideasPerRing : List ℕ := [1, 4, 6, 8, 10, 12, 14]

/-- Capacity of a ring: the sequence entry at min(ring, last index), so the
last capacity is reused for all further rings (page.tsx line 1118). -/
def ringCapacity (ring : ℕ) : ℕ :=
  ideasPerRing.getD (min ring (ideasPerRing.length - 1)) 0

lemma ringCapacity_pos (ring : ℕ) : 0 < ringCapacity ring := by
  have hm : min ring (ideasPerRing.length - 1) ≤ 6 :=
    Nat.min_le_right ring (ideasPerRing.length - 1)
  unfold ringCapacity
  set m := min ring (ideasPerRing.length - 1) with hmdef
  interval_cases m <;> decide

/-- One placed node of the allIdeas layout: ring radius is the ring index
times the fixed spacing 800 (base radius 0), the angle advances by equal
steps of a full turn divided by the ring capacity, offset by -90 degrees
(page.tsx lines 1119-1135). -/
def mkAllIdeasNode (cosQ sinQ : ℚ → ℚ) (piQ : ℚ) (cluster : ClusterInfo)
    (colorMap : List (String × String)) (idea : IdeaNodeData) (ring j : ℕ) : GNode :=
  let itemsInRing := ringCapacity ring
  let ringRadius : ℚ := 0 + (ring : ℚ) * 800
  let angle := (2 * piQ * (j : ℚ)) / (itemsInRing : ℚ) - piQ / 2
  { id := idea.id,
    pos := { x := ringRadius * cosQ angle, y := ringRadius * sinQ angle },
    color := colorFor colorMap (idea.cluster_id.getD "") cluster.color,
    size := "large", isCenter := false }

/-- The while loop of layoutAllIdeas (page.tsx lines 1117-1139): fill the
current ring with up to its capacity of ideas in encounter order, then move
to the next ring. -/
def layoutAllIdeasAux (cosQ sinQ : ℚ → ℚ) (piQ : ℚ) (cluster : ClusterInfo)
    (colorMap : List (String × String)) : List IdeaNodeData → ℕ → List GNode
  | [], _ => []
  | idea :: rest, ring =>
    let itemsInRing := ringCapacity ring
    ((idea :: rest).take itemsInRing).enum.map
      (fun ji => mkAllIdeasNode cosQ sinQ piQ cluster colorMap ji.2 ring ji.1)
    ++ layoutAllIdeasAux cosQ sinQ piQ cluster colorMap
        ((idea :: rest).drop itemsInRing) (ring + 1)
termination_by l _ => l.length
decreasing_by
  simp only [List.length_drop]
  have := ringCapacity_pos ring
  simp only [List.length_cons]
  omega

/-- layoutAllIdeas (page.tsx lines 1104-1142). -/
def layoutAllIdeas (cosQ sinQ : ℚ → ℚ) (piQ : ℚ) (ideas : List IdeaNodeData)
    (cluster : ClusterInfo) (colorMap : List (String × String)) : List GNode :=
  layoutAllIdeasAux cosQ sinQ piQ cluster colorMap ideas 0

/-- C9: the layout routines are total functions and handle the empty cases
exactly as the specification demands: a cluster with zero (filtered) ideas
yields the empty topIdeas layout (the n = 0 early return) and the empty
allIdeas layout; a focused idea with zero connected ideas yields exactly the
single pinned centre node at the origin and an empty edge list — in
particular the centroid division by the zero count affects no emitted node. -/
theorem C9_layouts_total_on_empty (sqrtQ cosQ sinQ : ℚ → ℚ) (piQ : ℚ)
    (cluster : ClusterInfo) (cm : List (String × String)) (centerIdea : IdeaNodeData)
    (conns allConns : List IdeaEdgeData) (atan2Q : ℚ → ℚ → ℚ) (g : GraphData)
    (nodes : List GNode) :
    layoutTopIdeas cosQ sinQ piQ [] cluster cm conns allConns = []
    ∧ layoutConnectedIdeas sqrtQ centerIdea [] cluster cm
        = [{ id := centerIdea.id, pos := { x := 0, y := 0 },
             color := colorFor cm (centerIdea.cluster_id.getD "") cluster.color,
             size := "large", isCenter := true }]
    ∧ connectedIdeasEdges atan2Q piQ g centerIdea [] nodes = []
    ∧ layoutAllIdeas cosQ sinQ piQ [] cluster cm = [] := by
  refine ⟨rfl, rfl, rfl, ?_⟩
  rw [layoutAllIdeas, layoutAllIdeasAux]

/-- Closed-form ring assignment: the ring and in-ring slot reached after
consuming whole ring capacities from the encounter index. -/
def ringSlot (ring k : ℕ) : ℕ × ℕ :=
  if h : k < ringCapacity ring then (ring, k)
  else ringSlot (ring + 1) (k - ringCapacity ring)
termination_by k
decreasing_by
  have := ringCapacity_pos ring
  omega

/-- Total capacity of the rings before ring r. -/
def capSum (r : ℕ) : ℕ := ((List.range r).map ringCapacity).sum

/-- The ring assignment is the unique one consuming consecutive capacity
blocks: the slot is within the ring's capacity and the capacities of the
rings between the start and the assigned ring sum with the slot to the
index. -/
lemma ringSlot_spec (k : ℕ) : ∀ (ring : ℕ),
    ring ≤ (ringSlot ring k).1
    ∧ (ringSlot ring k).2 < ringCapacity (ringSlot ring k).1
    ∧ (((List.range ((ringSlot ring k).1 - ring)).map
        (fun d => ringCapacity (ring + d))).sum + (ringSlot ring k).2 = k) := by
  induction k using Nat.strong_induction_on with
  | _ k ih =>
    intro ring
    rw [ringSlot]
    by_cases h : k < ringCapacity ring
    · simp [h]
    · have hcap := ringCapacity_pos ring
      have hrec := ih (k - ringCapacity ring) (by omega) (ring + 1)
      simp only [dif_neg h]
      refine ⟨le_trans (Nat.le_succ ring) hrec.1, hrec.2.1, ?_⟩
      have hm : (ringSlot (ring + 1) (k - ringCapacity ring)).1 - ring
          = ((ringSlot (ring + 1) (k - ringCapacity ring)).1 - (ring + 1)) + 1 := by
        have := hrec.1
        omega
      rw [hm, List.range_succ_eq_map, List.map_cons, List.map_map, List.sum_cons]
      have hfun : ((fun d => ringCapacity (ring + d)) ∘ Nat.succ)
          = fun d => ringCapacity ((ring + 1) + d) := by
        funext d
        have : ring + Nat.succ d = (ring + 1) + d := by omega
        rw [Function.comp_apply, this]
      rw [hfun]
      have hsum := hrec.2.2
      have hk2 : ringCapacity ring ≤ k := Nat.le_of_not_lt h
      simp only [Nat.add_zero]
      omega

lemma layoutAllIdeasAux_length (cosQ sinQ : ℚ → ℚ) (piQ : ℚ) (cluster : ClusterInfo)
    (cm : List (String × String)) (rem : List IdeaNodeData) (ring : ℕ) :
    (layoutAllIdeasAux cosQ sinQ piQ cluster cm rem ring).length = rem.length := by
  suffices h : ∀ (n : ℕ) (rem2 : List IdeaNodeData) (ring2 : ℕ), rem2.length = n →
      (layoutAllIdeasAux cosQ sinQ piQ cluster cm rem2 ring2).length = rem2.length by
    exact h rem.length rem ring rfl
  intro n
  induction n using Nat.strong_induction_on with
  | _ n ih =>
    intro rem2 ring2 hn
    cases rem2 with
    | nil => rw [layoutAllIdeasAux]; rfl
    | cons a rest =>
      rw [layoutAllIdeasAux]
      have hc := ringCapacity_pos ring2
      simp only [List.length_cons] at hn
      rw [List.length_append, List.length_map, List.enum_length,
        ih (((a :: rest).drop (ringCapacity ring2)).length)
          (by simp only [List.length_drop, List.length_cons]; omega) _ _ rfl]
      simp only [List.length_take, List.length_drop, List.length_cons]
      omega

/-- Every node of the allIdeas layout is exactly the encounter-order idea
placed at its closed-form ring assignment. -/
lemma layoutAllIdeasAux_getElem (cosQ sinQ : ℚ → ℚ) (piQ : ℚ) (cluster : ClusterInfo)
    (cm : List (String × String)) (k : ℕ) : ∀ (rem : List IdeaNodeData) (ring : ℕ),
    (layoutAllIdeasAux cosQ sinQ piQ cluster cm rem ring)[k]?
      = rem[k]?.map (fun idea =>
          mkAllIdeasNode cosQ sinQ piQ cluster cm idea (ringSlot ring k).1 (ringSlot ring k).2) := by
  induction k using Nat.strong_induction_on with
  | _ k ih =>
    intro rem ring
    cases rem with
    | nil => rw [layoutAllIdeasAux]; simp
    | cons a rest =>
      rw [layoutAllIdeasAux]
      have hcap := ringCapacity_pos ring
      have hTlen : (((a :: rest).take (ringCapacity ring)).enum.map
          (fun ji => mkAllIdeasNode cosQ sinQ piQ cluster cm ji.2 ring ji.1)).length
          = min (ringCapacity ring) (a :: rest).length := by
        rw [List.length_map, List.enum_length, List.length_take]
      by_cases hk : k < min (ringCapacity ring) (a :: rest).length
      · rw [List.getElem?_append_left (by rw [hTlen]; exact hk)]
        have hkc : k < ringCapacity ring := lt_of_lt_of_le hk (Nat.min_le_left _ _)
        have hkl : k < (a :: rest).length := lt_of_lt_of_le hk (Nat.min_le_right _ _)
        have hkT : k < ((a :: rest).take (ringCapacity ring)).length := by
          rw [List.length_take]; exact hk
        rw [List.getElem?_map, List.getElem?_enum,
          List.getElem?_eq_getElem hkT, List.getElem_take]
        rw [List.getElem?_eq_getElem hkl]
        rw [ringSlot, dif_pos hkc]
        rfl
      · push_neg at hk
        rw [List.getElem?_append_right (by rw [hTlen]; exact hk), hTlen]
        by_cases hlen : (a :: rest).length ≤ ringCapacity ring
        · have hmin : min (ringCapacity ring) (a :: rest).length = (a :: rest).length :=
            min_eq_right hlen
          rw [hmin] at hk
          have hdrop : (a :: rest).drop (ringCapacity ring) = [] :=
            List.drop_eq_nil_of_le hlen
          rw [hdrop, layoutAllIdeasAux]
          rw [List.getElem?_eq_none hk]
          simp
        · push_neg at hlen
          have hmin : min (ringCapacity ring) (a :: rest).length = ringCapacity ring :=
            min_eq_left (le_of_lt hlen)
          rw [hmin] at hk ⊢
          have hslot : ringSlot ring k = ringSlot (ring + 1) (k - ringCapacity ring) := by
            rw [ringSlot]
            rw [dif_neg (by omega)]
          rw [hslot, ih (k - ringCapacity ring) (by omega) _ (ring + 1), List.getElem?_drop]
          have harith : ringCapacity ring + (k - ringCapacity ring) = k := by omega
          rw [harith]

/-- C7: the allIdeas layout places the ideas in encounter order (node k is
idea k, and the lengths agree); node k sits on the ring given by the
closed-form assignment consuming the fixed capacity sequence 1, 4, 6, 8, 10,
12, 14 (the last capacity reused for all later rings) in consecutive blocks
(capacity partial sum plus in-ring slot recovers the index, and the slot is
always below the ring capacity, so a short final ring is simply
under-filled); and each node's position has radius exactly 800 times its
ring index with the angle advancing in equal steps of a full turn divided by
the ring capacity. -/
theorem C7_all_ideas_concentric_rings (cosQ sinQ : ℚ → ℚ) (piQ : ℚ)
    (ideas : List IdeaNodeData) (cluster : ClusterInfo) (cm : List (String × String))
    (k r j : ℕ) (idea : IdeaNodeData) :
    (layoutAllIdeas cosQ sinQ piQ ideas cluster cm)[k]?
      = ideas[k]?.map (fun idea2 =>
          mkAllIdeasNode cosQ sinQ piQ cluster cm idea2 (ringSlot 0 k).1 (ringSlot 0 k).2)
    ∧ (layoutAllIdeas cosQ sinQ piQ ideas cluster cm).length = ideas.length
    ∧ (ringSlot 0 k).2 < ringCapacity (ringSlot 0 k).1
    ∧ capSum (ringSlot 0 k).1 + (ringSlot 0 k).2 = k
    ∧ ideasPerRing = [1, 4, 6, 8, 10, 12, 14]
    ∧ ringCapacity (6 + r) = 14
    ∧ (mkAllIdeasNode cosQ sinQ piQ cluster cm idea r j).pos
        = { x := ((r : ℚ) * 800) * cosQ ((2 * piQ * (j : ℚ)) / ((ringCapacity r : ℕ) : ℚ) - piQ / 2),
            y := ((r : ℚ) * 800) * sinQ ((2 * piQ * (j : ℚ)) / ((ringCapacity r : ℕ) : ℚ) - piQ / 2) } := by
  refine ⟨layoutAllIdeasAux_getElem cosQ sinQ piQ cluster cm k ideas 0,
    layoutAllIdeasAux_length cosQ sinQ piQ cluster cm ideas 0, (ringSlot_spec k 0).2.1, ?_, rfl, ?_, ?_⟩
  · have h := (ringSlot_spec k 0).2.2
    have hfun : ∀ d ∈ List.range ((ringSlot 0 k).1 - 0), ringCapacity (0 + d) = ringCapacity d := by
      intro d _
      rw [Nat.zero_add]
    rw [List.map_congr_left hfun] at h
    have h0 : (ringSlot 0 k).1 - 0 = (ringSlot 0 k).1 := rfl
    rw [h0] at h
    exact h
  · have hmin : min (6 + r) (ideasPerRing.length - 1) = 6 := by
      have : ideasPerRing.length = 7 := rfl
      omega
    rw [ringCapacity, hmin]
    rfl
  · simp only [mkAllIdeasNode]
    rw [zero_add]
